import Mathlib

/-!
Verification development for the mood-based playlist recommender backend
(`src/app.py`). Python strings are modelled as `List Char`; each Python
function of the query-construction and recommendation pipeline is embedded
as an executable Lean definition, and gateway (network) calls are modelled
as fields of explicit gateway structures, with `none` standing for a raised
exception. All claims of the specification are settled against these
definitions.
-/

/-- Python strings are modelled as lists of characters. -/
abbrev Str := List Char

/-- Coerce a Lean string literal into the `Str` model. -/
def str (s : String) : Str := s.data

/-- The ASCII whitespace characters recognised by Python's `str.split()`
(space, tab, newline, carriage return, vertical tab, form feed). -/
def isSpaceChar (c : Char) : Bool :=
  c = ' ' || c = '\t' || c = '\n' || c = '\r' || c.toNat = 11 || c.toNat = 12

/-- Worker for `splitWs`: `acc` holds the current word, reversed. -/
def splitWsGo : Str → Str → List Str
  | [], acc => if acc = [] then [] else [acc.reverse]
  | c :: rest, acc =>
    if isSpaceChar c then
      if acc = [] then splitWsGo rest [] else acc.reverse :: splitWsGo rest []
    else splitWsGo rest (c :: acc)

/-- Python `s.split()`: split on runs of whitespace, discarding empties. -/
def splitWs (s : Str) : List Str := splitWsGo s []

/-- Python `' '.join(ws)`. -/
def joinSpace : List Str → Str
  | [] => []
  | [w] => w
  | w :: ws => w ++ ' ' :: joinSpace ws

/-- Python `s.strip()`: drop whitespace from both ends. -/
def stripWs (s : Str) : Str :=
  (((s.dropWhile isSpaceChar).reverse.dropWhile isSpaceChar)).reverse

/-- Python `" ".join(s.split())`: collapse runs of whitespace. -/
def collapseWs (s : Str) : Str := joinSpace (splitWs s)

/-- `matchStart pat s` is true when `pat` occurs at the very start of `s`. -/
def matchStart : Str → Str → Bool
  | [], _ => true
  | _ :: _, [] => false
  | p :: ps, c :: cs => p = c && matchStart ps cs

/-- Fueled worker for `removeAll`; the fuel is an upper bound on the number
of characters still to be scanned, so `s.length` fuel always suffices. -/
def removeAllFuel : Nat → Str → Str → Str
  | 0, _, s => s
  | fuel + 1, pat, s =>
    match s with
    | [] => []
    | c :: rest =>
      if pat ≠ [] ∧ matchStart pat (c :: rest) then
        removeAllFuel fuel pat ((c :: rest).drop pat.length)
      else
        c :: removeAllFuel fuel pat rest

/-- Python `s.replace(pat, '')`: delete all non-overlapping occurrences of
`pat`, scanning left to right (app.py line 241). -/
def removeAll (pat s : Str) : Str := removeAllFuel s.length pat s

/-- The fixed boilerplate phrases of `clean_mood_description_for_spotify`
(app.py lines 236-239), in source order. -/
def remove_phrases : List Str :=
  [str "Based on the image content:", str "captures this mood",
   str "Image mood:", str "Mood:", str "feeling:", str "emotion:",
   str "vibe:", str "ambiance:", str "atmosphere:", str "Image:"]

/-- The phrase-removal loop of app.py lines 240-241. -/
def removePhrasesAll (description : Str) : Str :=
  remove_phrases.foldl (fun d p => removeAll p d) description

/-- `clean_mood_description_for_spotify` (app.py lines 234-244): strip the
boilerplate phrases, then `" ".join(description.split()).strip()`. -/
def clean_mood_description_for_spotify (description : Str) : Str :=
  stripWs (collapseWs (removePhrasesAll description))

/-- Python `s.lower()` (ASCII case folding). -/
def lowerStr (s : Str) : Str := s.map Char.toLower

/-- Python `s.replace('-', ' ')` (app.py line 254). -/
def replaceDash (s : Str) : Str := s.map (fun c => if c = '-' then ' ' else c)

/-- ASCII decimal digit test. -/
def isDigitChar (c : Char) : Bool := 48 ≤ c.toNat && c.toNat ≤ 57

/-- Python `word.isdigit()`: nonempty and all digits. -/
def isdigitW (w : Str) : Bool := !(w.isEmpty) && w.all isDigitChar

/-- Python `int(word)` for an all-digit word. -/
def digitsToNat (w : Str) : Nat := w.foldl (fun n c => n * 10 + (c.toNat - 48)) 0

/-- Fueled decimal rendering worker. -/
def natStrGo : Nat → Nat → Str
  | 0, _ => []
  | fuel + 1, n =>
    if n < 10 then [Char.ofNat (48 + n)]
    else natStrGo fuel (n / 10) ++ [Char.ofNat (48 + n % 10)]

/-- Decimal rendering of a natural number, as Python's f-string would. -/
def natStr (n : Nat) : Str := natStrGo (n + 1) n

/-- The fixed genre vocabulary of `extract_filters` (app.py lines 248-250). -/
def genres : List Str :=
  [str "rock", str "pop", str "jazz", str "classical", str "hip-hop",
   str "rap", str "edm", str "electronic", str "folk", str "country",
   str "blues", str "soul", str "r&b", str "metal", str "reggae",
   str "latin", str "indie", str "dance", str "alternative"]

/-- The classification loop of `extract_filters` (app.py lines 255-262):
returns `(search_terms, filters)`, both in input word order. -/
def extractLists : List Str → List Str × List Str
  | [] => ([], [])
  | word :: ws =>
    let rest := extractLists ws
    if word ∈ genres then
      (rest.1, (str "genre:" ++ word) :: rest.2)
    else if isdigitW word = true ∧ 1900 ≤ digitsToNat word ∧ digitsToNat word ≤ 2100 then
      (rest.1,
       (str "year:" ++ natStr (digitsToNat word - digitsToNat word % 10)
         ++ str "-" ++ natStr (digitsToNat word - digitsToNat word % 10 + 9)) :: rest.2)
    else
      (word :: rest.1, rest.2)

/-- `extract_filters` (app.py lines 246-266): lowercase, replace hyphens with
spaces, split into words, classify each word, and return the residual terms
joined by spaces together with the filter list. -/
def extract_filters (description : Str) : Str × List Str :=
  (joinSpace (extractLists (splitWs (replaceDash (lowerStr description)))).1,
   (extractLists (splitWs (replaceDash (lowerStr description)))).2)

/-- A catalog artist object: `{name, id}` as used from search results and
related-artist lookups. -/
structure ArtistObj where
  name : Str
  id : Str
deriving DecidableEq

/-- A raw catalog track item as returned by the gateway (the fields read by
`build_track`, app.py lines 284-292). `artists` keeps the full list because
the code indexes `artists[0]`. -/
structure RawTrack where
  name : Str
  artists : List ArtistObj
  album_name : Str
  preview_url : Option Str
  external_url : Str
  popularity : Int
deriving DecidableEq

/-- The track dictionary assembled by `build_track` (app.py lines 284-292). -/
structure Track where
  name : Str
  artist : Str
  album : Str
  preview_url : Option Str
  external_url : Str
  popularity : Int
deriving DecidableEq, Inhabited

/-- `build_track` (app.py lines 284-292). Indexing `item['artists'][0]`
raises on an empty artist list, modelled by `none`. -/
def build_track (item : RawTrack) : Option Track :=
  match item.artists with
  | [] => none
  | a :: _ =>
    some ⟨item.name, a.name, item.album_name, item.preview_url,
          item.external_url, item.popularity⟩

/-- A Python list comprehension `[build_track(item) for item in items]`:
fails as a whole if any element raises. -/
def buildAll : List RawTrack → Option (List Track)
  | [] => some []
  | r :: rs =>
    match build_track r with
    | none => none
    | some t =>
      match buildAll rs with
      | none => none
      | some ts => some (t :: ts)

/-- Insert-or-overwrite on an association list, exactly as assignment into a
Python dict: a repeated key keeps its original position but takes the new
value; a fresh key is appended at the end. -/
def upsert : List (Str × Track) → Str → Track → List (Str × Track)
  | [], k, v => [(k, v)]
  | (k', v') :: m, k, v =>
    if k' = k then (k', v) :: m else (k', v') :: upsert m k v

/-- The dedup step `list({track['name']: track for track in tracks}.values())`
(app.py lines 323 and 338): build a dict keyed by track name in iteration
order, then list its values. -/
def dedupTracks (ts : List Track) : List Track :=
  (ts.foldl (fun m t => upsert m t.name t) []).map Prod.snd

/-- First-match lookup in an association list (a Python dict lookup). -/
def lookupA (n : Str) : List (Str × Track) → Option Track
  | [] => none
  | (k, v) :: m => if k = n then some v else lookupA n m

/-- First occurrence of a given name in a track list (used to state which
entry of the dedup output carries a name). -/
def findByName (n : Str) : List Track → Option Track
  | [] => none
  | t :: ts => if t.name = n then some t else findByName n ts

/-- Last track with a given name in a list. -/
def lastWithName (n : Str) : List Track → Option Track
  | [] => none
  | t :: ts =>
    match lastWithName n ts with
    | some u => some u
    | none => if t.name = n then some t else none

/-- First-seen deduplication of a list of names, given an initial set of
already-seen names. -/
def firstDedupGo (seen : List Str) : List Str → List Str
  | [] => []
  | n :: ns =>
    if n ∈ seen then firstDedupGo seen ns else n :: firstDedupGo (n :: seen) ns

/-- The catalog gateway: each field models one Spotify Web API call made by
`get_spotify_recommendations`; `none` models a raised exception. -/
structure Gateway where
  searchCombined : Str → Nat → Option (List ArtistObj × List RawTrack)
  searchTracks : Str → Nat → Option (List RawTrack)
  artistTopTracks : Str → Option (List RawTrack)
  relatedArtists : Str → Option (List ArtistObj)

/-- The mood-based search of app.py lines 344-361, instrumented with the
list of queries passed to `sp.search(type='track')`, in order. -/
def moodSearch (sp : Gateway) (base_terms : Str) (filters : List Str)
    (limit : Nat) : List Str × Option (List Track) :=
  match sp.searchTracks (joinSpace (filters ++ splitWs base_terms)) limit with
  | none => ([joinSpace (filters ++ splitWs base_terms)], none)
  | some items =>
    match buildAll items with
    | none => ([joinSpace (filters ++ splitWs base_terms)], none)
    | some tracks =>
      if tracks = [] ∧ filters ≠ [] then
        match sp.searchTracks base_terms limit with
        | none => ([joinSpace (filters ++ splitWs base_terms), base_terms], none)
        | some items2 =>
          ([joinSpace (filters ++ splitWs base_terms), base_terms], buildAll items2)
      else ([joinSpace (filters ++ splitWs base_terms)], some tracks)

/-- The loop body of the `try` block at app.py lines 313-316: extend the
accumulated tracks with up to `limit/4` top tracks of each related artist;
`Sum.inr` carries the tracks accumulated so far when an exception occurs
inside the block (to be handled by the `except` clause). -/
def tryRelatedLoop (sp : Gateway) (limit : Nat) :
    List ArtistObj → List Track → List Track ⊕ List Track
  | [], acc => Sum.inl acc
  | ra :: ras, acc =>
    match sp.artistTopTracks ra.id with
    | none => Sum.inr acc
    | some rel =>
      match buildAll rel with
      | none => Sum.inr acc
      | some built => tryRelatedLoop sp limit ras (acc ++ built.take (limit / 4))

/-- The artist branch of the entity-priority strategy (app.py lines
303-326): the artist's own top tracks up to `limit/2`, extended with related
artists' top tracks, or — when anything in the `try` block raises — with the
artist's own top tracks sliced `[limit//2:limit]`; then dedup and truncate. -/
def entityArtistBranch (sp : Gateway) (limit : Nat) (artist_id : Str) :
    Option (List Track) :=
  match sp.artistTopTracks artist_id with
  | none => none
  | some atop =>
    match buildAll atop with
    | none => none
    | some built =>
      match (match sp.relatedArtists artist_id with
             | none => Sum.inr (built.take (limit / 2))
             | some ras => tryRelatedLoop sp limit (ras.take 2) (built.take (limit / 2))) with
      | Sum.inl t => some ((dedupTracks t).take limit)
      | Sum.inr partialT =>
        match sp.artistTopTracks artist_id with
        | none => none
        | some atop2 =>
          match buildAll ((atop2.drop (limit / 2)).take (limit - limit / 2)) with
          | none => none
          | some more => some ((dedupTracks (partialT ++ more)).take limit)

/-- The track branch of the entity-priority strategy (app.py lines 328-341):
the matched tracks, extended with up to `limit/2` top tracks of the first
track's first artist; then dedup and truncate. -/
def entityTrackBranch (sp : Gateway) (limit : Nat)
    (track_items : List RawTrack) (first : RawTrack) : Option (List Track) :=
  match buildAll track_items with
  | none => none
  | some tracks =>
    match first.artists with
    | [] => none
    | fa :: _ =>
      match sp.artistTopTracks fa.id with
      | none => none
      | some rtops =>
        match buildAll (rtops.take (limit / 2)) with
        | none => none
        | some related => some ((dedupTracks (tracks ++ related)).take limit)

/-- `get_spotify_recommendations` (app.py lines 268-361). `user_token` only
selects which Spotify client object is built and does not affect the
recommendation logic; a falsy (`None` or empty) `mentioned_entity` selects
the mood-based strategy. -/
def get_spotify_recommendations (sp : Gateway) (mood_description : Str)
    (user_token : Option Str) (limit : Nat) (mentioned_entity : Option Str) :
    Option (List Track) :=
  match mentioned_entity with
  | none =>
    (moodSearch sp (extract_filters (clean_mood_description_for_spotify mood_description)).1
      (extract_filters (clean_mood_description_for_spotify mood_description)).2 limit).2
  | some entity =>
    if entity = [] then
      (moodSearch sp (extract_filters (clean_mood_description_for_spotify mood_description)).1
        (extract_filters (clean_mood_description_for_spotify mood_description)).2 limit).2
    else
      match sp.searchCombined entity limit with
      | none => none
      | some (artist_items, track_items) =>
        match artist_items with
        | artist :: _ => entityArtistBranch sp limit artist.id
        | [] =>
          match track_items with
          | first :: rest => entityTrackBranch sp limit (first :: rest) first
          | [] =>
            (moodSearch sp
              (extract_filters (clean_mood_description_for_spotify mood_description)).1
              (extract_filters (clean_mood_description_for_spotify mood_description)).2 limit).2

/-- Python `s.split('/')` (keeping empty segments; never empty overall). -/
def splitSlash : Str → List Str
  | [] => [[]]
  | c :: rest =>
    if c = '/' then [] :: splitSlash rest
    else
      match splitSlash rest with
      | w :: ws => (c :: w) :: ws
      | [] => [[c]]

/-- Python `s.split('/')[-1]`: the trailing path segment (app.py line 388). -/
def lastSegment (s : Str) : Str := (splitSlash s).getLastD []

/-- The playlist object returned by the gateway's create call. -/
structure PlaylistObj where
  id : Str
  external_url : Str
deriving DecidableEq

/-- The result dictionary of `create_spotify_playlist` (app.py lines 392-396). -/
structure PlaylistInfo where
  playlist_id : Str
  playlist_url : Str
  playlist_name : Str
deriving DecidableEq

/-- The gateway endpoints touched during playlist creation. -/
inductive GwCall
  | identity
  | createPlaylist
  | addTracks
deriving DecidableEq

/-- The exception kinds distinguished by the `recommend` route's handlers
(app.py lines 449-454): `ValueError` versus any other exception. -/
inductive PyError
  | valueError
  | otherError
deriving DecidableEq

/-- The user-authenticated gateway used for playlist creation; `me = none`
models the identity check raising (e.g. a rejected token). -/
structure PlaylistGateway where
  me : Option Str
  user_playlist_create : Str → Str → Str → Bool → Option PlaylistObj
  playlist_add_items : Str → List Str → Option Unit

/-- `create_spotify_playlist` (app.py lines 363-396), instrumented with the
ordered list of gateway calls attempted. A falsy token (`None` or the empty
string) raises `ValueError` before any gateway call; any gateway failure
afterwards surfaces as a non-`ValueError` exception. -/
def create_spotify_playlist (gw : PlaylistGateway) (user_token : Option Str)
    (mood_description : Str) (tracks : List Track) :
    List GwCall × Except PyError PlaylistInfo :=
  if user_token = none ∨ user_token = some [] then
    ([], Except.error PyError.valueError)
  else
    match gw.me with
    | none => ([GwCall.identity], Except.error PyError.otherError)
    | some user_id =>
      let clean_description := clean_mood_description_for_spotify mood_description
      let playlist_name := str "Recommended: " ++ clean_description
      let playlist_description :=
        str "AI-generated playlist based on: " ++ clean_description
      match gw.user_playlist_create user_id playlist_name playlist_description true with
      | none =>
        ([GwCall.identity, GwCall.createPlaylist], Except.error PyError.otherError)
      | some playlist =>
        let track_uris := tracks.map (fun t => lastSegment t.external_url)
        match gw.playlist_add_items playlist.id track_uris with
        | none =>
          ([GwCall.identity, GwCall.createPlaylist, GwCall.addTracks],
           Except.error PyError.otherError)
        | some _ =>
          ([GwCall.identity, GwCall.createPlaylist, GwCall.addTracks],
           Except.ok ⟨playlist.id, playlist.external_url, playlist_name⟩)

/-- The error mapping of the `recommend` route around playlist creation
(app.py lines 445-454): `ValueError` becomes HTTP 401, any other exception
becomes HTTP 500. -/
def playlist_route_status (gw : PlaylistGateway) (user_token : Option Str)
    (md : Str) (tracks : List Track) : Except Nat PlaylistInfo :=
  match (create_spotify_playlist gw user_token md tracks).2 with
  | Except.ok info => Except.ok info
  | Except.error PyError.valueError => Except.error 401
  | Except.error PyError.otherError => Except.error 500

/-! Concrete gateways and tracks used to instantiate theorems on explicit
inputs. -/

/-- A raw track named `Song` by artist `X`. -/
def rawSongX : RawTrack :=
  ⟨str "Song", [⟨str "X", str "xid"⟩], str "Alb1", none, str "u1", 1⟩

/-- A raw track with the same name `Song` but by artist `Y`. -/
def rawSongY : RawTrack :=
  ⟨str "Song", [⟨str "Y", str "yid"⟩], str "Alb2", none, str "u2", 2⟩

/-- `build_track rawSongX`. -/
def trackSongX : Track := ⟨str "Song", str "X", str "Alb1", none, str "u1", 1⟩

/-- `build_track rawSongY`. -/
def trackSongY : Track := ⟨str "Song", str "Y", str "Alb2", none, str "u2", 2⟩

/-- Two distinct raw tracks by artist `B`. -/
def rawB1 : RawTrack :=
  ⟨str "One", [⟨str "B", str "bid"⟩], str "AlbB", none, str "v1", 5⟩

/-- Second raw track by artist `B`. -/
def rawB2 : RawTrack :=
  ⟨str "Two", [⟨str "B", str "bid"⟩], str "AlbB", none, str "v2", 6⟩

/-- `build_track rawB1`. -/
def trackB1 : Track := ⟨str "One", str "B", str "AlbB", none, str "v1", 5⟩

/-- `build_track rawB2`. -/
def trackB2 : Track := ⟨str "Two", str "B", str "AlbB", none, str "v2", 6⟩

/-- Gateway whose entity search finds artist `A` whose top tracks carry a
duplicated track name with different artists. -/
def gwDupName : Gateway :=
  ⟨fun _ _ => some ([⟨str "A", str "aid"⟩], []),
   fun _ _ => some [],
   fun _ => some [rawSongX, rawSongY],
   fun _ => some []⟩

/-- Gateway returning empty results everywhere. -/
def gwEmpty : Gateway :=
  ⟨fun _ _ => some ([], []),
   fun _ _ => some [],
   fun _ => some [],
   fun _ => some []⟩

/-- Gateway whose track search returns a hit only for the exact query
`happy`, so the composite filtered query misses and the retry hits. -/
def gwRetryHit : Gateway :=
  ⟨fun _ _ => some ([], []),
   fun q _ => if q = str "happy" then some [rawB1] else some [],
   fun _ => some [],
   fun _ => some []⟩

/-- Gateway whose entity search finds artist `B`, whose related-artist
lookup raises, and whose top tracks are `rawB1, rawB2`. -/
def gwRelatedFails : Gateway :=
  ⟨fun _ _ => some ([⟨str "B", str "bid"⟩], []),
   fun _ _ => some [],
   fun _ => some [rawB1, rawB2],
   fun _ => none⟩

/-- Playlist gateway whose identity check rejects the token. -/
def gwIdentityRejects : PlaylistGateway :=
  ⟨none, fun _ _ _ _ => some ⟨str "pid", str "purl"⟩, fun _ _ => some ()⟩

/-! Lemmas about whitespace splitting, joining and stripping. -/

theorem splitWsGo_ne_nil (s : Str) : ∀ (acc w : Str), w ∈ splitWsGo s acc → w ≠ [] := by
  induction s with
  | nil =>
    intro acc w hw
    simp only [splitWsGo] at hw
    split at hw
    · simp at hw
    · next hacc =>
      simp only [List.mem_singleton] at hw
      subst hw
      simpa using hacc
  | cons c rest ih =>
    intro acc w hw
    simp only [splitWsGo] at hw
    split at hw
    · split at hw
      · exact ih [] w hw
      · next hacc =>
        rcases List.mem_cons.mp hw with h | h
        · subst h; simpa using hacc
        · exact ih [] w h
    · exact ih (c :: acc) w hw

theorem splitWsGo_chars (s : Str) :
    ∀ (acc w : Str) (c : Char), w ∈ splitWsGo s acc → c ∈ w →
      c ∈ acc ∨ (c ∈ s ∧ isSpaceChar c = false) := by
  induction s with
  | nil =>
    intro acc w c hw hc
    simp only [splitWsGo] at hw
    split at hw
    · simp at hw
    · simp only [List.mem_singleton] at hw
      subst hw
      left
      simpa using hc
  | cons ch rest ih =>
    intro acc w c hw hc
    simp only [splitWsGo] at hw
    split at hw
    · split at hw
      · rcases ih [] w c hw hc with h | h
        · simp at h
        · exact Or.inr ⟨List.mem_cons_of_mem _ h.1, h.2⟩
      · rcases List.mem_cons.mp hw with h | h
        · subst h
          left
          simpa using hc
        · rcases ih [] w c h hc with h2 | h2
          · simp at h2
          · exact Or.inr ⟨List.mem_cons_of_mem _ h2.1, h2.2⟩
    · next hsp =>
      rcases ih (ch :: acc) w c hw hc with h | h
      · rcases List.mem_cons.mp h with h2 | h2
        · subst h2
          exact Or.inr ⟨List.mem_cons_self _ _, by simpa using hsp⟩
        · exact Or.inl h2
      · exact Or.inr ⟨List.mem_cons_of_mem _ h.1, h.2⟩

theorem splitWs_ne_nil (s w : Str) (hw : w ∈ splitWs s) : w ≠ [] :=
  splitWsGo_ne_nil s [] w hw

theorem splitWs_chars (s w : Str) (c : Char) (hw : w ∈ splitWs s) (hc : c ∈ w) :
    c ∈ s ∧ isSpaceChar c = false := by
  rcases splitWsGo_chars s [] w c hw hc with h | h
  · simp at h
  · exact h

theorem splitWsGo_append (w : Str) (hw : ∀ c ∈ w, isSpaceChar c = false) :
    ∀ (t acc : Str), splitWsGo (w ++ t) acc = splitWsGo t (w.reverse ++ acc) := by
  induction w with
  | nil => intro t acc; simp
  | cons c w' ih =>
    intro t acc
    have hc : isSpaceChar c = false := hw c (List.mem_cons_self _ _)
    have hw' : ∀ d ∈ w', isSpaceChar d = false := fun d hd => hw d (List.mem_cons_of_mem _ hd)
    simp only [List.cons_append, splitWsGo, hc, Bool.false_eq_true, if_false, List.append_eq]
    rw [ih hw' t (c :: acc)]
    congr 1
    simp

theorem joinSpace_ne_nil (w : Str) (ws : List Str) (hne : w ≠ []) :
    joinSpace (w :: ws) ≠ [] := by
  cases ws with
  | nil => simpa [joinSpace]
  | cons w2 ws' => simp [joinSpace]

theorem splitWs_joinSpace (ws : List Str)
    (h : ∀ w ∈ ws, w ≠ [] ∧ ∀ c ∈ w, isSpaceChar c = false) :
    splitWs (joinSpace ws) = ws := by
  induction ws with
  | nil => rfl
  | cons w ws' ih =>
    obtain ⟨hne, hch⟩ := h w (List.mem_cons_self _ _)
    have h' : ∀ v ∈ ws', v ≠ [] ∧ ∀ c ∈ v, isSpaceChar c = false :=
      fun v hv => h v (List.mem_cons_of_mem _ hv)
    cases ws' with
    | nil =>
      have h2 := splitWsGo_append w hch [] []
      simp only [List.append_nil] at h2
      show splitWs (joinSpace [w]) = [w]
      simp only [joinSpace]
      unfold splitWs
      rw [h2]
      simp [splitWsGo, hne]
    | cons w2 ws'' =>
      have h2 := splitWsGo_append w hch (' ' :: joinSpace (w2 :: ws'')) []
      unfold splitWs
      simp only [joinSpace] at h2 ⊢
      rw [h2]
      simp only [List.append_nil, splitWsGo]
      have hsp : isSpaceChar ' ' = true := by decide
      rw [if_pos hsp, if_neg (by simpa using hne)]
      rw [List.reverse_reverse]
      congr 1
      exact ih h'

theorem joinSpace_head (ws : List Str)
    (h : ∀ w ∈ ws, w ≠ [] ∧ ∀ c ∈ w, isSpaceChar c = false) :
    ∀ c, (joinSpace ws).head? = some c → isSpaceChar c = false := by
  cases ws with
  | nil => intro c hc; simp [joinSpace] at hc
  | cons w ws' =>
    obtain ⟨hne, hch⟩ := h w (List.mem_cons_self _ _)
    intro c hc
    cases w with
    | nil => exact absurd rfl hne
    | cons wh wt =>
      have : c = wh := by
        cases ws' with
        | nil => simp [joinSpace] at hc; exact hc.symm
        | cons w2 ws'' => simp [joinSpace] at hc; exact hc.symm
      subst this
      exact hch c (List.mem_cons_self _ _)

theorem joinSpace_getLast (ws : List Str)
    (h : ∀ w ∈ ws, w ≠ [] ∧ ∀ c ∈ w, isSpaceChar c = false) :
    ∀ c, (joinSpace ws).getLast? = some c → isSpaceChar c = false := by
  induction ws with
  | nil => intro c hc; simp [joinSpace] at hc
  | cons w ws' ih =>
    obtain ⟨hne, hch⟩ := h w (List.mem_cons_self _ _)
    have h' : ∀ v ∈ ws', v ≠ [] ∧ ∀ c ∈ v, isSpaceChar c = false :=
      fun v hv => h v (List.mem_cons_of_mem _ hv)
    intro c hc
    cases ws' with
    | nil =>
      simp only [joinSpace] at hc
      exact hch c (List.mem_of_getLast?_eq_some hc)
    | cons w2 ws'' =>
      simp only [joinSpace] at hc
      rw [List.getLast?_append_of_ne_nil _ (by simp)] at hc
      have hjne : joinSpace (w2 :: ws'') ≠ [] :=
        joinSpace_ne_nil w2 ws'' (h' w2 (List.mem_cons_self _ _)).1
      rcases hj : joinSpace (w2 :: ws'') with _ | ⟨jh, jt⟩
      · exact absurd hj hjne
      · rw [hj, List.getLast?_cons_cons] at hc
        apply ih h' c
        rw [hj]
        exact hc

theorem stripWs_eq_self (s : Str)
    (hh : ∀ c, s.head? = some c → isSpaceChar c = false)
    (hl : ∀ c, s.getLast? = some c → isSpaceChar c = false) :
    stripWs s = s := by
  have h1 : s.dropWhile isSpaceChar = s := by
    cases s with
    | nil => rfl
    | cons c t =>
      have hc := hh c rfl
      simp [List.dropWhile_cons, hc]
  unfold stripWs
  rw [h1]
  have h2 : s.reverse.dropWhile isSpaceChar = s.reverse := by
    rcases hrev : s.reverse with _ | ⟨c, t⟩
    · rfl
    · have hcl : s.getLast? = some c := by
        rw [← List.head?_reverse, hrev]
        rfl
      have hc := hl c hcl
      simp [List.dropWhile_cons, hc]
  rw [h2, List.reverse_reverse]

theorem splitWs_words_ok (s : Str) :
    ∀ w ∈ splitWs s, w ≠ [] ∧ ∀ c ∈ w, isSpaceChar c = false :=
  fun w hw => ⟨splitWs_ne_nil s w hw, fun c hc => (splitWs_chars s w c hw hc).2⟩

theorem stripWs_collapseWs (s : Str) : stripWs (collapseWs s) = collapseWs s := by
  unfold collapseWs
  exact stripWs_eq_self _ (joinSpace_head _ (splitWs_words_ok s))
    (joinSpace_getLast _ (splitWs_words_ok s))

theorem collapseWs_collapseWs (s : Str) : collapseWs (collapseWs s) = collapseWs s := by
  show joinSpace (splitWs (joinSpace (splitWs s))) = joinSpace (splitWs s)
  rw [splitWs_joinSpace _ (splitWs_words_ok s)]

/-! Lemmas about the dict-based deduplication. -/

theorem lookupA_upsert (m : List (Str × Track)) (k n : Str) (v : Track) :
    lookupA n (upsert m k v) = if k = n then some v else lookupA n m := by
  induction m with
  | nil => simp [upsert, lookupA]
  | cons p m ih =>
    obtain ⟨k', v'⟩ := p
    by_cases hk : k' = k
    · subst hk
      simp only [upsert, if_pos rfl, lookupA]
      by_cases hn : k' = n <;> simp [hn]
    · simp only [upsert, if_neg hk, lookupA, ih]
      by_cases hn : k' = n
      · subst hn
        have hkn : ¬k = k' := fun h => hk h.symm
        simp [hkn]
      · simp [hn]

theorem keys_upsert (m : List (Str × Track)) (k : Str) (v : Track) :
    (upsert m k v).map Prod.fst =
      if k ∈ m.map Prod.fst then m.map Prod.fst else m.map Prod.fst ++ [k] := by
  induction m with
  | nil => simp [upsert]
  | cons p m ih =>
    obtain ⟨k', v'⟩ := p
    by_cases hk : k' = k
    · subst hk
      simp [upsert]
    · have hkn : ¬k = k' := fun h => hk h.symm
      simp only [upsert, if_neg hk, List.map_cons, ih, List.mem_cons, hkn, false_or]
      by_cases hmem : k ∈ m.map Prod.fst
      · simp [hmem]
      · simp [hmem]

theorem upsert_good (m : List (Str × Track)) (k : Str) (v : Track)
    (hm : ∀ p ∈ m, (p.2 : Track).name = p.1) (hv : v.name = k) :
    ∀ p ∈ upsert m k v, (p.2 : Track).name = p.1 := by
  induction m with
  | nil =>
    intro p hp
    simp only [upsert, List.mem_singleton] at hp
    subst hp
    simpa using hv
  | cons q m ih =>
    obtain ⟨k', v'⟩ := q
    intro p hp
    by_cases hk : k' = k
    · subst hk
      simp only [upsert] at hp
      simp only [if_true] at hp
      rcases List.mem_cons.mp hp with hp2 | hp2
      · subst hp2; simpa using hv
      · exact hm p (List.mem_cons_of_mem _ hp2)
    · simp only [upsert] at hp
      rw [if_neg hk] at hp
      rcases List.mem_cons.mp hp with hp2 | hp2
      · subst hp2
        exact hm _ (List.mem_cons_self _ _)
      · exact ih (fun q hq => hm q (List.mem_cons_of_mem _ hq)) p hp2

theorem foldl_upsert_good (ts : List Track) :
    ∀ m, (∀ p ∈ m, (p.2 : Track).name = p.1) →
      ∀ p ∈ ts.foldl (fun m t => upsert m t.name t) m, (p.2 : Track).name = p.1 := by
  induction ts with
  | nil => intro m hm; simpa using hm
  | cons t ts ih =>
    intro m hm
    simp only [List.foldl_cons]
    exact ih _ (upsert_good m t.name t hm rfl)

theorem foldl_upsert_lookup (ts : List Track) :
    ∀ (m : List (Str × Track)) (n : Str),
      lookupA n (ts.foldl (fun m t => upsert m t.name t) m) =
        match lastWithName n ts with
        | some u => some u
        | none => lookupA n m := by
  induction ts with
  | nil => intro m n; simp [lastWithName]
  | cons t ts ih =>
    intro m n
    simp only [List.foldl_cons, lastWithName]
    rw [ih]
    rcases h : lastWithName n ts with _ | u
    · simp only []
      rw [lookupA_upsert]
      by_cases hn : t.name = n
      · simp [hn]
      · simp [hn]
    · simp

theorem firstDedupGo_congr (ns : List Str) :
    ∀ (s1 s2 : List Str), (∀ x, x ∈ s1 ↔ x ∈ s2) →
      firstDedupGo s1 ns = firstDedupGo s2 ns := by
  induction ns with
  | nil => intro s1 s2 h; rfl
  | cons n ns ih =>
    intro s1 s2 h
    simp only [firstDedupGo]
    by_cases hn : n ∈ s1
    · rw [if_pos hn, if_pos ((h n).mp hn)]
      exact ih s1 s2 h
    · rw [if_neg hn, if_neg (fun hh => hn ((h n).mpr hh))]
      congr 1
      apply ih
      intro x
      simp [List.mem_cons, h x]

theorem foldl_upsert_keys (ts : List Track) :
    ∀ m, (ts.foldl (fun m t => upsert m t.name t) m).map Prod.fst =
      m.map Prod.fst ++ firstDedupGo (m.map Prod.fst) (ts.map Track.name) := by
  induction ts with
  | nil => intro m; simp [firstDedupGo]
  | cons t ts ih =>
    intro m
    simp only [List.foldl_cons, List.map_cons, firstDedupGo]
    rw [ih, keys_upsert]
    by_cases hmem : t.name ∈ m.map Prod.fst
    · rw [if_pos hmem, if_pos hmem]
    · rw [if_neg hmem, if_neg hmem, List.append_assoc]
      congr 1
      simp only [List.singleton_append, List.cons.injEq, true_and]
      apply firstDedupGo_congr
      intro x
      simp [List.mem_append, List.mem_cons, or_comm]

theorem map_name_snd (l : List (Str × Track)) (hl : ∀ p ∈ l, (p.2 : Track).name = p.1) :
    (l.map Prod.snd).map Track.name = l.map Prod.fst := by
  induction l with
  | nil => rfl
  | cons p l ih =>
    simp only [List.map_cons]
    rw [hl p (List.mem_cons_self _ _), ih (fun q hq => hl q (List.mem_cons_of_mem _ hq))]

theorem findByName_map_snd (n : Str) (l : List (Str × Track))
    (hl : ∀ p ∈ l, (p.2 : Track).name = p.1) :
    findByName n (l.map Prod.snd) = lookupA n l := by
  induction l with
  | nil => rfl
  | cons p l ih =>
    obtain ⟨k, v⟩ := p
    have hv : v.name = k := hl (k, v) (List.mem_cons_self _ _)
    simp only [List.map_cons, findByName, lookupA, hv]
    by_cases hk : k = n
    · simp [hk]
    · simp [hk, ih (fun q hq => hl q (List.mem_cons_of_mem _ hq))]

theorem dedupTracks_names (ts : List Track) :
    (dedupTracks ts).map Track.name = firstDedupGo [] (ts.map Track.name) := by
  unfold dedupTracks
  rw [map_name_snd _ (foldl_upsert_good ts [] (by simp)), foldl_upsert_keys ts []]
  simp

theorem dedupTracks_lastWins (ts : List Track) (n : Str) :
    findByName n (dedupTracks ts) = lastWithName n ts := by
  unfold dedupTracks
  rw [findByName_map_snd n _ (foldl_upsert_good ts [] (by simp)),
    foldl_upsert_lookup ts [] n]
  rcases h : lastWithName n ts with _ | u <;> simp [lookupA]

/-! Lemmas about `buildAll`, the mood-based search and the entity branches. -/

theorem buildAll_length (l : List RawTrack) :
    ∀ r, buildAll l = some r → r.length = l.length := by
  induction l with
  | nil =>
    intro r h
    simp only [buildAll, Option.some.injEq] at h
    subst h
    rfl
  | cons x l ih =>
    intro r h
    simp only [buildAll] at h
    rcases hb : build_track x with _ | t <;> rw [hb] at h
    · simp at h
    · rcases ha : buildAll l with _ | ts <;> rw [ha] at h
      · simp at h
      · simp only [Option.some.injEq] at h
        subst h
        simp [ih ts ha]

theorem buildAll_take (l : List RawTrack) :
    ∀ (r : List Track) (n : Nat), buildAll l = some r →
      buildAll (l.take n) = some (r.take n) := by
  induction l with
  | nil =>
    intro r n h
    simp only [buildAll, Option.some.injEq] at h
    subst h
    simp [buildAll]
  | cons x l ih =>
    intro r n h
    simp only [buildAll] at h
    rcases hb : build_track x with _ | t <;> rw [hb] at h
    · simp at h
    · rcases ha : buildAll l with _ | ts <;> rw [ha] at h
      · simp at h
      · simp only [Option.some.injEq] at h
        subst h
        cases n with
        | zero => simp [buildAll]
        | succ n =>
          simp only [List.take_succ_cons, buildAll, hb, ih ts n ha]

theorem buildAll_drop (l : List RawTrack) :
    ∀ (r : List Track) (n : Nat), buildAll l = some r →
      buildAll (l.drop n) = some (r.drop n) := by
  induction l with
  | nil =>
    intro r n h
    simp only [buildAll, Option.some.injEq] at h
    subst h
    simp [buildAll]
  | cons x l ih =>
    intro r n h
    simp only [buildAll] at h
    rcases hb : build_track x with _ | t <;> rw [hb] at h
    · simp at h
    · rcases ha : buildAll l with _ | ts <;> rw [ha] at h
      · simp at h
      · simp only [Option.some.injEq] at h
        subst h
        cases n with
        | zero => simp [buildAll, hb, ha]
        | succ n => simp only [List.drop_succ_cons, ih ts n ha]

theorem moodSearch_retry (sp : Gateway) (b : Str) (filters : List Str) (limit : Nat)
    (h0 : sp.searchTracks (joinSpace (filters ++ splitWs b)) limit = some [])
    (hf : filters ≠ []) :
    moodSearch sp b filters limit =
      ([joinSpace (filters ++ splitWs b), b],
       match sp.searchTracks b limit with
       | none => none
       | some items2 => buildAll items2) := by
  rcases h2 : sp.searchTracks b limit with _ | items2 <;>
    simp [moodSearch, h0, h2, hf, buildAll]

theorem moodSearch_no_filters (sp : Gateway) (b : Str) (limit : Nat) :
    (moodSearch sp b [] limit).1 = [joinSpace ([] ++ splitWs b)] := by
  rcases h1 : sp.searchTracks (joinSpace (splitWs b)) limit with _ | items
  · simp [moodSearch, h1]
  · rcases h2 : buildAll items with _ | tracks
    · simp [moodSearch, h1, h2]
    · simp [moodSearch, h1, h2]

theorem moodSearch_nonzero (sp : Gateway) (b : Str) (filters : List Str) (limit : Nat)
    (items : List RawTrack)
    (h1 : sp.searchTracks (joinSpace (filters ++ splitWs b)) limit = some items)
    (hne : items ≠ []) :
    moodSearch sp b filters limit =
      ([joinSpace (filters ++ splitWs b)], buildAll items) := by
  rcases h2 : buildAll items with _ | tracks
  · simp [moodSearch, h1, h2]
  · have hlen := buildAll_length items tracks h2
    have htne : tracks ≠ [] := by
      intro hnil
      apply hne
      subst hnil
      simpa using hlen.symm
    simp [moodSearch, h1, h2, htne]

theorem moodSearch_trace (sp : Gateway) (b : Str) (filters : List Str) (limit : Nat) :
    (moodSearch sp b filters limit).1 = [joinSpace (filters ++ splitWs b)] ∨
    (moodSearch sp b filters limit).1 = [joinSpace (filters ++ splitWs b), b] := by
  rcases h1 : sp.searchTracks (joinSpace (filters ++ splitWs b)) limit with _ | items
  · left; simp [moodSearch, h1]
  · rcases h2 : buildAll items with _ | tracks
    · left; simp [moodSearch, h1, h2]
    · by_cases hc : tracks = [] ∧ filters ≠ []
      · rcases h3 : sp.searchTracks b limit with _ | items2
        · right; simp [moodSearch, h1, h2, h3, hc.1, hc.2]
        · right; simp [moodSearch, h1, h2, h3, hc.1, hc.2]
      · left; simp [moodSearch, h1, h2, hc]

theorem moodSearch_bound (sp : Gateway) (b : Str) (filters : List Str) (limit : Nat)
    (hS : ∀ q l items, sp.searchTracks q l = some items → items.length ≤ l) :
    ∀ res, (moodSearch sp b filters limit).2 = some res → res.length ≤ limit := by
  intro res h
  rcases h1 : sp.searchTracks (joinSpace (filters ++ splitWs b)) limit with _ | items
  · simp [moodSearch, h1] at h
  · rcases h2 : buildAll items with _ | tracks
    · simp [moodSearch, h1, h2] at h
    · by_cases hc : tracks = [] ∧ filters ≠ []
      · rcases h3 : sp.searchTracks b limit with _ | items2
        · simp [moodSearch, h1, h2, h3, hc.1, hc.2] at h
        · simp [moodSearch, h1, h2, h3, hc.1, hc.2] at h
          have hl2 := buildAll_length items2 res h
          have hb2 := hS b limit items2 h3
          omega
      · simp [moodSearch, h1, h2, hc] at h
        subst h
        have hl := buildAll_length items tracks h2
        have hb := hS _ limit items h1
        omega

theorem entityArtistBranch_bound (sp : Gateway) (limit : Nat) (aid : Str) :
    ∀ res, entityArtistBranch sp limit aid = some res → res.length ≤ limit := by
  intro res h
  rcases h1 : sp.artistTopTracks aid with _ | atop
  · simp [entityArtistBranch, h1] at h
  · rcases h2 : buildAll atop with _ | built
    · simp [entityArtistBranch, h1, h2] at h
    · rcases h3 : sp.relatedArtists aid with _ | ras
      · rcases h5 : buildAll ((atop.drop (limit / 2)).take (limit - limit / 2)) with _ | more
        · simp [entityArtistBranch, h1, h2, h3, h5] at h
        · simp [entityArtistBranch, h1, h2, h3, h5] at h
          subst h
          simp [List.length_take]
      · rcases h4 : tryRelatedLoop sp limit (ras.take 2) (built.take (limit / 2)) with t | t
        · simp [entityArtistBranch, h1, h2, h3, h4] at h
          subst h
          simp [List.length_take]
        · rcases h5 : buildAll ((atop.drop (limit / 2)).take (limit - limit / 2)) with _ | more
          · simp [entityArtistBranch, h1, h2, h3, h4, h5] at h
          · simp [entityArtistBranch, h1, h2, h3, h4, h5] at h
            subst h
            simp [List.length_take]

theorem entityTrackBranch_bound (sp : Gateway) (limit : Nat)
    (track_items : List RawTrack) (first : RawTrack) :
    ∀ res, entityTrackBranch sp limit track_items first = some res → res.length ≤ limit := by
  intro res h
  rcases h1 : buildAll track_items with _ | tracks
  · simp [entityTrackBranch, h1] at h
  · rcases h2 : first.artists with _ | ⟨fa, rest⟩
    · simp [entityTrackBranch, h1, h2] at h
    · rcases h3 : sp.artistTopTracks fa.id with _ | rtops
      · simp [entityTrackBranch, h1, h2, h3] at h
      · rcases h4 : buildAll (rtops.take (limit / 2)) with _ | related
        · simp [entityTrackBranch, h1, h2, h3, h4] at h
        · simp [entityTrackBranch, h1, h2, h3, h4] at h
          subst h
          simp [List.length_take]

/-! Lemmas about `extract_filters`. -/

theorem genres_no_digits : ∀ g ∈ genres, isdigitW g = false := by decide

theorem extractLists_genre (w : Str) (ws : List Str) (hg : w ∈ genres) :
    extractLists (w :: ws) =
      ((extractLists ws).1, (str "genre:" ++ w) :: (extractLists ws).2) := by
  simp [extractLists, hg]

theorem extractLists_year (w : Str) (ws : List Str) (hg : w ∉ genres)
    (hd : isdigitW w = true) (h1 : 1900 ≤ digitsToNat w) (h2 : digitsToNat w ≤ 2100) :
    extractLists (w :: ws) =
      ((extractLists ws).1,
       (str "year:" ++ natStr (digitsToNat w - digitsToNat w % 10) ++ str "-"
         ++ natStr (digitsToNat w - digitsToNat w % 10 + 9)) :: (extractLists ws).2) := by
  simp [extractLists, hg, hd, h1, h2]

theorem extractLists_term (w : Str) (ws : List Str) (hg : w ∉ genres)
    (hy : ¬(isdigitW w = true ∧ 1900 ≤ digitsToNat w ∧ digitsToNat w ≤ 2100)) :
    extractLists (w :: ws) = (w :: (extractLists ws).1, (extractLists ws).2) := by
  simp [extractLists, hg, hy]

theorem extractLists_all_genres (ws : List Str) (h : ∀ w ∈ ws, w ∈ genres) :
    extractLists ws = ([], ws.map (fun w => str "genre:" ++ w)) := by
  induction ws with
  | nil => rfl
  | cons w ws ih =>
    have hw := h w (List.mem_cons_self _ _)
    have h' : ∀ v ∈ ws, v ∈ genres := fun v hv => h v (List.mem_cons_of_mem _ hv)
    rw [extractLists_genre w ws hw, ih h']
    simp

theorem extractLists_all_match (ws : List Str)
    (h : ∀ w ∈ ws, w ∈ genres ∨
      (isdigitW w = true ∧ 1900 ≤ digitsToNat w ∧ digitsToNat w ≤ 2100)) :
    (extractLists ws).1 = [] ∧ (extractLists ws).2.length = ws.length := by
  induction ws with
  | nil => exact ⟨rfl, rfl⟩
  | cons w ws ih =>
    have h' := fun v hv => h v (List.mem_cons_of_mem _ hv)
    obtain ⟨ih1, ih2⟩ := ih h'
    rcases h w (List.mem_cons_self _ _) with hg | hy
    · rw [extractLists_genre w ws hg]
      simp [ih1, ih2]
    · have hng : w ∉ genres := by
        intro hmem
        have hfalse := genres_no_digits w hmem
        rw [hy.1] at hfalse
        cases hfalse
      rw [extractLists_year w ws hng hy.1 hy.2.1 hy.2.2]
      simp [ih1, ih2]

theorem extractLists_shape (ws : List Str) :
    ∀ f ∈ (extractLists ws).2,
      (∃ w, w ∈ ws ∧ f = str "genre:" ++ w) ∨
      (∃ d, f = str "year:" ++ natStr d ++ str "-" ++ natStr (d + 9)) := by
  induction ws with
  | nil => intro f hf; simp [extractLists] at hf
  | cons w ws ih =>
    intro f hf
    by_cases hg : w ∈ genres
    · rw [extractLists_genre w ws hg] at hf
      rcases List.mem_cons.mp hf with hf | hf
      · exact Or.inl ⟨w, List.mem_cons_self _ _, hf⟩
      · rcases ih f hf with ⟨v, hv, he⟩ | ht
        · exact Or.inl ⟨v, List.mem_cons_of_mem _ hv, he⟩
        · exact Or.inr ht
    · by_cases hy : isdigitW w = true ∧ 1900 ≤ digitsToNat w ∧ digitsToNat w ≤ 2100
      · rw [extractLists_year w ws hg hy.1 hy.2.1 hy.2.2] at hf
        rcases List.mem_cons.mp hf with hf | hf
        · exact Or.inr ⟨digitsToNat w - digitsToNat w % 10, hf⟩
        · rcases ih f hf with ⟨v, hv, he⟩ | ht
          · exact Or.inl ⟨v, List.mem_cons_of_mem _ hv, he⟩
          · exact Or.inr ht
      · rw [extractLists_term w ws hg hy] at hf
        rcases ih f hf with ⟨v, hv, he⟩ | ht
        · exact Or.inl ⟨v, List.mem_cons_of_mem _ hv, he⟩
        · exact Or.inr ht

theorem replaceDash_no_dash (s : Str) : ∀ c ∈ replaceDash s, c ≠ '-' := by
  intro c hc
  rcases List.mem_map.mp hc with ⟨c0, _, he⟩
  subst he
  by_cases h0 : c0 = '-' <;> simp [h0]

/-! The claims. -/

/-- C1 counterexample: in the entity-priority strategy, when the artist's
top tracks carry the same name `Song` for two different artists, the dict
comprehension of app.py line 323 keeps the entry at position `j` (the last
occurrence), not the one at position `i`: the run returns the second track,
which differs from the first while sharing its name. -/
theorem c1_counterexample :
    get_spotify_recommendations gwDupName (str "chill") none 10 (some (str "A")) =
      some [trackSongY] ∧
    trackSongY ≠ trackSongX ∧ trackSongY.name = trackSongX.name :=
  ⟨by decide, by decide, by decide⟩

/-- C1 amended: the deduplication step keeps exactly one track per distinct
name, output order is the first-seen order of distinct names, and the
surviving entry for each name is its last occurrence (position `j`), not the
first. -/
theorem c1_dedup_last_wins (ts : List Track) (n : Str) :
    (dedupTracks ts).map Track.name = firstDedupGo [] (ts.map Track.name) ∧
    findByName n (dedupTracks ts) = lastWithName n ts :=
  ⟨dedupTracks_names ts, dedupTracks_lastWins ts n⟩

/-- C2: if every catalog track search returns at most the requested number
of items, `get_spotify_recommendations` returns at most `limit` tracks, on
every branch (entity-artist, entity-track, mood-based and the filterless
retry). -/
theorem c2_length_le_limit (sp : Gateway) (md : Str) (tok : Option Str)
    (limit : Nat) (ent : Option Str)
    (hS : ∀ q l items, sp.searchTracks q l = some items → items.length ≤ l)
    (res : List Track)
    (hres : get_spotify_recommendations sp md tok limit ent = some res) :
    res.length ≤ limit := by
  rcases ent with _ | entity
  · simp only [get_spotify_recommendations] at hres
    exact moodSearch_bound sp _ _ limit hS res hres
  · by_cases he : entity = []
    · simp only [get_spotify_recommendations, if_pos he] at hres
      exact moodSearch_bound sp _ _ limit hS res hres
    · rcases hc : sp.searchCombined entity limit with _ | ⟨ai, ti⟩
      · simp [get_spotify_recommendations, he, hc] at hres
      · rcases ai with _ | ⟨artist, arest⟩
        · rcases ti with _ | ⟨first, trest⟩
          · simp [get_spotify_recommendations, he, hc] at hres
            exact moodSearch_bound sp _ _ limit hS res hres
          · simp [get_spotify_recommendations, he, hc] at hres
            exact entityTrackBranch_bound sp limit (first :: trest) first res hres
        · simp [get_spotify_recommendations, he, hc] at hres
          exact entityArtistBranch_bound sp limit artist.id res hres

/-- C2 witness: at a concrete gateway returning empty result lists, the
theorem applies and the returned list has length at most 10. -/
theorem c2_witness :
    get_spotify_recommendations gwEmpty (str "pop") none 10 none = some [] ∧
    ([] : List Track).length ≤ 10 :=
  ⟨by decide,
   c2_length_le_limit gwEmpty (str "pop") none 10 none
     (fun q l items h => by simp [gwEmpty] at h; subst h; simp) [] (by decide)⟩

/-- C3 counterexample: cleaning is not idempotent: collapsing the double
space inside `"Image  mood:"` creates the phrase `"Image mood:"`, which only
a second cleaning pass removes. -/
theorem c3_counterexample :
    clean_mood_description_for_spotify
        (clean_mood_description_for_spotify (str "Image  mood:")) ≠
      clean_mood_description_for_spotify (str "Image  mood:") := by decide

/-- C3 amended: cleaning is idempotent on every input whose cleaned form is
left unchanged by the phrase-removal pass (whitespace collapsing and
stripping alone are idempotent). -/
theorem c3_idempotent_on_phrase_free (x : Str)
    (h : removePhrasesAll (clean_mood_description_for_spotify x) =
      clean_mood_description_for_spotify x) :
    clean_mood_description_for_spotify (clean_mood_description_for_spotify x) =
      clean_mood_description_for_spotify x := by
  have hx : clean_mood_description_for_spotify x = collapseWs (removePhrasesAll x) := by
    unfold clean_mood_description_for_spotify
    exact stripWs_collapseWs _
  calc clean_mood_description_for_spotify (clean_mood_description_for_spotify x)
      = stripWs (collapseWs (removePhrasesAll (clean_mood_description_for_spotify x))) := rfl
    _ = stripWs (collapseWs (clean_mood_description_for_spotify x)) := by rw [h]
    _ = stripWs (collapseWs (collapseWs (removePhrasesAll x))) := by rw [hx]
    _ = stripWs (collapseWs (removePhrasesAll x)) := by rw [collapseWs_collapseWs]
    _ = clean_mood_description_for_spotify x := rfl

/-- C3 witness: a concrete phrase-free input on which the amended idempotence
theorem applies. -/
theorem c3_witness :
    clean_mood_description_for_spotify
        (clean_mood_description_for_spotify (str "happy vibes bright")) =
      clean_mood_description_for_spotify (str "happy vibes bright") :=
  c3_idempotent_on_phrase_free (str "happy vibes bright") (by decide)

/-- C4 counterexample: for the description `"pop pop"`, whose only word is
the vocabulary genre `pop`, `extract_filters` emits one filter per
occurrence — two `genre:pop` filters for a single distinct matching word. -/
theorem c4_counterexample :
    (extract_filters (str "pop pop")).2 = [str "genre:pop", str "genre:pop"] ∧
    firstDedupGo [] (splitWs (replaceDash (lowerStr (str "pop pop")))) = [str "pop"] :=
  ⟨by decide, by decide⟩

/-- C4 amended: for every description all of whose normalized words are in
the genre vocabulary, `extract_filters` returns one Genre filter per
occurrence of each matching word, in order, and an empty residual-terms
string. -/
theorem c4_genre_per_occurrence (d : Str)
    (h : ∀ w ∈ splitWs (replaceDash (lowerStr d)), w ∈ genres) :
    (extract_filters d).1 = [] ∧
    (extract_filters d).2 =
      (splitWs (replaceDash (lowerStr d))).map (fun w => str "genre:" ++ w) := by
  unfold extract_filters
  rw [extractLists_all_genres _ h]
  exact ⟨rfl, rfl⟩

/-- C4 witness: concrete all-genre description. -/
theorem c4_witness :
    (extract_filters (str "jazz pop")).1 = [] ∧
    (extract_filters (str "jazz pop")).2 =
      (splitWs (replaceDash (lowerStr (str "jazz pop")))).map (fun w => str "genre:" ++ w) :=
  c4_genre_per_occurrence (str "jazz pop") (by decide)

/-- C5: every word classified as a year token (all digits, value `y` with
`1900 ≤ y ≤ 2100`) emits the filter `year:start-end` with
`start = y - (y mod 10)` and `end = start + 9`. -/
theorem c5_year_filter (w : Str) (ws : List Str)
    (hd : isdigitW w = true) (h1 : 1900 ≤ digitsToNat w) (h2 : digitsToNat w ≤ 2100) :
    extractLists (w :: ws) =
      ((extractLists ws).1,
       (str "year:" ++ natStr (digitsToNat w - digitsToNat w % 10) ++ str "-"
         ++ natStr (digitsToNat w - digitsToNat w % 10 + 9)) :: (extractLists ws).2) := by
  have hng : w ∉ genres := by
    intro hmem
    have hfalse := genres_no_digits w hmem
    rw [hd] at hfalse
    cases hfalse
  exact extractLists_year w ws hng hd h1 h2

/-- C5 witness: the token `1995` produces `year:1990-1999`. -/
theorem c5_witness : extractLists [str "1995"] = ([], [str "year:1990-1999"]) := by
  rw [c5_year_filter (str "1995") [] (by decide) (by decide) (by decide)]
  decide

/-- C6: in the mood-based strategy, if the composite-query search returns
zero tracks and at least one filter was extracted, exactly one retry is
issued with the residual terms only and the final result equals that
retry's results; no retry occurs when the filter list is empty or when the
first search returned at least one track; at most two searches are ever
issued. -/
theorem c6_fallback (sp : Gateway) (base_terms : Str) (filters : List Str) (limit : Nat) :
    ((sp.searchTracks (joinSpace (filters ++ splitWs base_terms)) limit = some [] ∧
        filters ≠ []) →
      moodSearch sp base_terms filters limit =
        ([joinSpace (filters ++ splitWs base_terms), base_terms],
         match sp.searchTracks base_terms limit with
         | none => none
         | some items2 => buildAll items2)) ∧
    (filters = [] →
      (moodSearch sp base_terms filters limit).1 =
        [joinSpace (filters ++ splitWs base_terms)]) ∧
    (∀ items, sp.searchTracks (joinSpace (filters ++ splitWs base_terms)) limit = some items →
      items ≠ [] →
      moodSearch sp base_terms filters limit =
        ([joinSpace (filters ++ splitWs base_terms)], buildAll items)) ∧
    (moodSearch sp base_terms filters limit).1.length ≤ 2 := by
  refine ⟨fun h => moodSearch_retry sp base_terms filters limit h.1 h.2, ?_, ?_, ?_⟩
  · intro hf
    subst hf
    exact moodSearch_no_filters sp base_terms limit
  · intro items h hne
    exact moodSearch_nonzero sp base_terms filters limit items h hne
  · rcases moodSearch_trace sp base_terms filters limit with h | h <;> simp [h]

/-- C6 witness: at a gateway answering only the residual query `happy`, the
filtered query `genre:pop happy` misses and the retry is issued and its
result returned. -/
theorem c6_witness :
    moodSearch gwRetryHit (str "happy") [str "genre:pop"] 10 =
      ([joinSpace ([str "genre:pop"] ++ splitWs (str "happy")), str "happy"],
       match gwRetryHit.searchTracks (str "happy") 10 with
       | none => none
       | some items2 => buildAll items2) :=
  (c6_fallback gwRetryHit (str "happy") [str "genre:pop"] 10).1 ⟨by decide, by decide⟩

/-- C7: in the entity-priority strategy with an artist match, a failing
related-artists lookup is caught locally: the call still succeeds and the
result extends the artist's first `limit/2` top tracks with its own top
tracks from index `limit/2` through `limit`. -/
theorem c7_related_degraded (sp : Gateway) (md : Str) (tok : Option Str) (limit : Nat)
    (ent : Str) (artist : ArtistObj) (restA : List ArtistObj) (ti : List RawTrack)
    (atop : List RawTrack) (built : List Track)
    (hent : ent ≠ [])
    (hcomb : sp.searchCombined ent limit = some (artist :: restA, ti))
    (hrel : sp.relatedArtists artist.id = none)
    (htop : sp.artistTopTracks artist.id = some atop)
    (hbuilt : buildAll atop = some built) :
    get_spotify_recommendations sp md tok limit (some ent) =
      some ((dedupTracks (built.take (limit / 2) ++
        (built.drop (limit / 2)).take (limit - limit / 2))).take limit) := by
  have hdrop : buildAll (atop.drop (limit / 2)) = some (built.drop (limit / 2)) :=
    buildAll_drop atop built (limit / 2) hbuilt
  have hmore : buildAll ((atop.drop (limit / 2)).take (limit - limit / 2)) =
      some ((built.drop (limit / 2)).take (limit - limit / 2)) :=
    buildAll_take (atop.drop (limit / 2)) (built.drop (limit / 2)) (limit - limit / 2) hdrop
  simp [get_spotify_recommendations, hent, hcomb, entityArtistBranch, htop, hbuilt,
    hrel, hmore]

/-- C7 witness: a concrete gateway whose related-artist lookup raises; the
result is the artist's own top tracks, extended by the `[limit/2:limit]`
slice. -/
theorem c7_witness :
    get_spotify_recommendations gwRelatedFails (str "chill") none 10 (some (str "Q")) =
      some ((dedupTracks ([trackB1, trackB2].take (10 / 2) ++
        ([trackB1, trackB2].drop (10 / 2)).take (10 - 10 / 2))).take 10) :=
  c7_related_degraded gwRelatedFails (str "chill") none 10 (str "Q")
    ⟨str "B", str "bid"⟩ [] [] [rawB1, rawB2] [trackB1, trackB2]
    (by decide) (by decide) rfl rfl rfl

/-- C8 counterexample: when the identity check rejects the token,
`create_spotify_playlist` fails with a generic exception mapped by the
route to HTTP 500 (`ServiceError`), not with the `ValueError` mapped to 401
(`AuthError`). -/
theorem c8_counterexample :
    playlist_route_status gwIdentityRejects (some (str "t")) (str "mood") [] =
      Except.error 500 ∧
    (create_spotify_playlist gwIdentityRejects (some (str "t")) (str "mood") []).2 ≠
      Except.error PyError.valueError :=
  ⟨rfl, fun h => nomatch Except.error.inj h⟩

/-- C8 amended: an absent (or empty) user token raises `ValueError`
(`AuthError`, HTTP 401) before any gateway call; a token rejected by the
identity check instead fails with a generic exception mapped to HTTP 500
(`ServiceError`), after exactly the identity call. -/
theorem c8_auth_behaviour (gw : PlaylistGateway) (md : Str) (tracks : List Track) :
    create_spotify_playlist gw none md tracks = ([], Except.error PyError.valueError) ∧
    create_spotify_playlist gw (some []) md tracks = ([], Except.error PyError.valueError) ∧
    (∀ tok : Str, tok ≠ [] → gw.me = none →
      (create_spotify_playlist gw (some tok) md tracks).1 = [GwCall.identity] ∧
      playlist_route_status gw (some tok) md tracks = Except.error 500) := by
  refine ⟨by simp [create_spotify_playlist], by simp [create_spotify_playlist], ?_⟩
  intro tok htok hme
  constructor
  · simp [create_spotify_playlist, htok, hme]
  · simp [playlist_route_status, create_spotify_playlist, htok, hme]

/-- C8 witness: concrete rejected token. -/
theorem c8_witness :
    (create_spotify_playlist gwIdentityRejects (some (str "t")) (str "mood") []).1 =
        [GwCall.identity] ∧
    playlist_route_status gwIdentityRejects (some (str "t")) (str "mood") [] =
      Except.error 500 :=
  (c8_auth_behaviour gwIdentityRejects (str "mood") []).2.2 (str "t") (by decide) rfl

/-- C9: `extract_filters` never emits the filter `genre:hip-hop`: hyphens
are replaced by spaces before splitting, so no word can equal the
vocabulary entry `hip-hop`. -/
theorem c9_no_hiphop_filter (d : Str) :
    (extract_filters d).2.countP (fun f => decide (f = str "genre:hip-hop")) = 0 := by
  rw [List.countP_eq_zero]
  intro f hf
  simp only [decide_eq_true_eq]
  intro heq
  subst heq
  have hf2 : str "genre:hip-hop" ∈
      (extractLists (splitWs (replaceDash (lowerStr d)))).2 := by
    simpa [extract_filters] using hf
  rcases extractLists_shape _ _ hf2 with ⟨w, hw, he⟩ | ⟨k, he⟩
  · have h6 : str "genre:" ++ str "hip-hop" = str "genre:" ++ w := by
      rw [← he]
      decide
    have hw' : str "hip-hop" = w := List.append_cancel_left h6
    have hdash : ('-' : Char) ∈ w := by
      rw [← hw']
      decide
    have hmem := (splitWs_chars _ w '-' hw hdash).1
    exact replaceDash_no_dash _ '-' hmem rfl
  · have hhead := congrArg List.head? he
    rw [show (str "genre:hip-hop").head? = some 'g' from rfl] at hhead
    simp only [List.head?_append] at hhead
    rw [show (str "year:").head? = some 'y' from rfl] at hhead
    simp only [Option.or] at hhead
    exact absurd (Option.some.inj hhead) (by decide)

/-- C10: when every normalized word of the description matches the genre
vocabulary or the year pattern (and there is at least one word), the
residual-terms string is empty, and a zero-result filtered search triggers
the fallback search with the empty string as its query. -/
theorem c10_empty_residual (sp : Gateway) (d : Str) (limit : Nat)
    (hwords : ∀ w ∈ splitWs (replaceDash (lowerStr d)),
      w ∈ genres ∨ (isdigitW w = true ∧ 1900 ≤ digitsToNat w ∧ digitsToNat w ≤ 2100))
    (hne : splitWs (replaceDash (lowerStr d)) ≠ [])
    (hzero : sp.searchTracks
        (joinSpace ((extract_filters d).2 ++ splitWs (extract_filters d).1)) limit =
      some []) :
    (extract_filters d).1 = [] ∧
    moodSearch sp (extract_filters d).1 (extract_filters d).2 limit =
      ([joinSpace ((extract_filters d).2 ++ splitWs (extract_filters d).1), ([] : Str)],
       match sp.searchTracks ([] : Str) limit with
       | none => none
       | some items => buildAll items) := by
  obtain ⟨hres, hlen⟩ := extractLists_all_match _ hwords
  have hres' : (extract_filters d).1 = [] := by
    simp [extract_filters, hres, joinSpace]
  have hfne : (extractLists (splitWs (replaceDash (lowerStr d)))).2 ≠ [] := by
    intro hnil
    rw [hnil] at hlen
    exact hne (List.length_eq_zero.mp hlen.symm)
  refine ⟨hres', ?_⟩
  have hr := moodSearch_retry sp (extract_filters d).1 (extract_filters d).2 limit hzero hfne
  rw [hr, hres']

/-- C10 witness: the description `pop 1995` has only genre/year words; at a
gateway returning empty search results, the retry uses the empty query. -/
theorem c10_witness :
    (extract_filters (str "pop 1995")).1 = [] ∧
    moodSearch gwEmpty (extract_filters (str "pop 1995")).1
        (extract_filters (str "pop 1995")).2 10 =
      ([joinSpace ((extract_filters (str "pop 1995")).2 ++
          splitWs (extract_filters (str "pop 1995")).1), ([] : Str)],
       match gwEmpty.searchTracks ([] : Str) 10 with
       | none => none
       | some items => buildAll items) :=
  c10_empty_residual gwEmpty (str "pop 1995") 10 (by decide) (by decide) rfl

